import Mathlib

set_option maxHeartbeats 1000000
set_option maxRecDepth 16000

namespace PyTCP

/-! ## Address and packet model for the ARP receive handler (arp/phrx.py)

MAC addresses (48 bit) and IPv4 addresses (32 bit) are modelled as natural
numbers.  The handler `_phrx_arp` mutates the stack object (ARP cache,
probe-conflict set) and calls `self._phtx_arp`; we embed it as a pure
function from the stack state, the configuration and the received packet to
the record of effects it performs. -/

/-- A MAC address, 48 bits wide, as a natural number. -/
abbrev Mac := Nat

/-- An IPv4 address, 32 bits wide, as a natural number. -/
abbrev Ip4 := Nat

/-- The broadcast MAC address ff:ff:ff:ff:ff:ff. -/
def mac_broadcast : Mac := 2 ^ 48 - 1

/-- MacAddress.is_broadcast: equality with ff:ff:ff:ff:ff:ff. -/
def mac_is_broadcast (m : Mac) : Bool := m == mac_broadcast

/-- arp/ps.py: ARP operation code for a request. -/
def ARP_OP_REQUEST : Nat := 1

/-- arp/ps.py: ARP operation code for a reply. -/
def ARP_OP_REPLY : Nat := 2

/-- The Ip4Address "0.0.0.0" used by the DAD-probe check in arp/phrx.py. -/
def ip4_unspecified : Ip4 := 0

/-- The fields of a parsed ARP packet used by arp/phrx.py
(oper, sha, spa, tha, tpa). -/
structure ArpSdu where
  oper : Nat
  sha : Mac
  spa : Ip4
  tha : Mac
  tpa : Ip4
deriving DecidableEq

/-- The parts of a received frame that arp/phrx.py reads: the Ethernet
destination MAC, the frame tracker, the parse-failure flag set by
ArpParser, and the parsed ARP fields. -/
structure PacketRx where
  ether_dst : Mac
  tracker : Nat
  parse_failed : Bool
  arp : ArpSdu
deriving DecidableEq

/-- The keyword arguments of the `self._phtx_arp` call made by arp/phrx.py
when it emits an ARP reply. -/
structure ArpTx where
  ether_src : Mac
  ether_dst : Mac
  arp_oper : Nat
  arp_sha : Mac
  arp_spa : Ip4
  arp_tha : Mac
  arp_tpa : Ip4
  echo_tracker : Nat
deriving DecidableEq

/-- The attributes of the stack object (`self`) that arp/phrx.py reads:
the unicast MAC, the IPv4 unicast set, and the candidate-address list
(`[_.address for _ in self.ip4_host_candidate]`). -/
structure StackState where
  mac_unicast : Mac
  ip4_unicast : List Ip4
  ip4_host_candidate : List Ip4
deriving DecidableEq

/-- The two config flags read by arp/phrx.py (config.py). -/
structure ArpConfig where
  arp_cache_update_from_direct_request : Bool
  arp_cache_update_from_gratuitious_reply : Bool
deriving DecidableEq

/-- The side effects performed by one run of `_phrx_arp`:
the `_phtx_arp` calls, the `arp_cache.add_entry` calls, the additions to
`arp_probe_unicast_conflict`, and whether the IP-conflict warning for a
request with our spa was logged. -/
structure ArpEffects where
  tx_arp : List ArpTx
  cache_adds : List (Ip4 × Mac)
  probe_conflict_adds : List Ip4
  ip_conflict_log : Bool
deriving DecidableEq

/-- The empty effect record: `_phrx_arp` returned without acting. -/
def no_effects : ArpEffects := ⟨[], [], [], false⟩

/-- Shallow embedding of `_phrx_arp` (arp/phrx.py, lines 46-109).
Each early `return` of the Python function corresponds to one branch. -/
def phrx_arp (self : StackState) (cfg : ArpConfig) (p : PacketRx) : ArpEffects :=
  if p.parse_failed then no_effects
  else if p.arp.oper = ARP_OP_REQUEST then
    if p.arp.spa ∈ self.ip4_unicast then
      { no_effects with ip_conflict_log := true }
    else if p.arp.tpa ∈ self.ip4_unicast then
      { no_effects with
        tx_arp := [⟨self.mac_unicast, p.arp.sha, ARP_OP_REPLY, self.mac_unicast,
                    p.arp.tpa, p.arp.sha, p.arp.spa, p.tracker⟩],
        cache_adds :=
          if cfg.arp_cache_update_from_direct_request then [(p.arp.spa, p.arp.sha)] else [] }
    else no_effects
  else if p.arp.oper = ARP_OP_REPLY then
    if p.ether_dst = self.mac_unicast ∧ p.arp.spa ∈ self.ip4_host_candidate ∧
        p.arp.tha = self.mac_unicast ∧ p.arp.tpa = ip4_unspecified then
      { no_effects with probe_conflict_adds := [p.arp.spa] }
    else if p.ether_dst = self.mac_unicast then
      { no_effects with cache_adds := [(p.arp.spa, p.arp.sha)] }
    else if mac_is_broadcast p.ether_dst ∧ p.arp.spa = p.arp.tpa ∧
        cfg.arp_cache_update_from_gratuitious_reply then
      { no_effects with cache_adds := [(p.arp.spa, p.arp.sha)] }
    else no_effects
  else no_effects

/-! ### Claims about the ARP receive handler -/

/-- C1: a received ARP Request whose tpa is in the stack's IPv4 unicast set
and whose spa is not makes `_phrx_arp` emit exactly one ARP Reply carrying
the stack's unicast MAC as ether_src/arp_sha, the requested IP (the
request's tpa) as arp_spa, the requester's sha/spa as arp_tha/arp_tpa, and
the received frame's tracker as echo_tracker; and it adds the
(sender-IP, sender-MAC) entry to the ARP cache if and only if
config.arp_cache_update_from_direct_request is true. -/
theorem arp_request_to_stack_replies (self : StackState) (cfg : ArpConfig) (p : PacketRx)
    (hpf : p.parse_failed = false)
    (hop : p.arp.oper = ARP_OP_REQUEST)
    (hspa : p.arp.spa ∉ self.ip4_unicast)
    (htpa : p.arp.tpa ∈ self.ip4_unicast) :
    (phrx_arp self cfg p).tx_arp =
      [⟨self.mac_unicast, p.arp.sha, ARP_OP_REPLY, self.mac_unicast,
        p.arp.tpa, p.arp.sha, p.arp.spa, p.tracker⟩] ∧
    ((phrx_arp self cfg p).cache_adds = [(p.arp.spa, p.arp.sha)] ↔
      cfg.arp_cache_update_from_direct_request = true) ∧
    (phrx_arp self cfg p).probe_conflict_adds = [] ∧
    (phrx_arp self cfg p).ip_conflict_log = false := by
  have h0 : ¬(p.parse_failed = true) := by simp [hpf]
  simp only [phrx_arp, if_neg h0, if_pos hop, if_neg hspa, if_pos htpa]
  refine ⟨by trivial, ?_, by trivial, by trivial⟩
  cases h : cfg.arp_cache_update_from_direct_request <;> simp [h, no_effects]

theorem arp_request_to_stack_replies_witness :
    (20 : Ip4) ∉ ([10] : List Ip4) ∧
    ((phrx_arp ⟨7, [10], [33]⟩ ⟨true, true⟩
        ⟨mac_broadcast, 5, false, ⟨ARP_OP_REQUEST, 2, 20, 0, 10⟩⟩).tx_arp =
        [⟨7, 2, ARP_OP_REPLY, 7, 10, 2, 20, 5⟩] ∧
      ((phrx_arp ⟨7, [10], [33]⟩ ⟨true, true⟩
        ⟨mac_broadcast, 5, false, ⟨ARP_OP_REQUEST, 2, 20, 0, 10⟩⟩).cache_adds =
        [(20, 2)] ↔ true = true) ∧
      (phrx_arp ⟨7, [10], [33]⟩ ⟨true, true⟩
        ⟨mac_broadcast, 5, false, ⟨ARP_OP_REQUEST, 2, 20, 0, 10⟩⟩).probe_conflict_adds = [] ∧
      (phrx_arp ⟨7, [10], [33]⟩ ⟨true, true⟩
        ⟨mac_broadcast, 5, false, ⟨ARP_OP_REQUEST, 2, 20, 0, 10⟩⟩).ip_conflict_log = false) :=
  ⟨by decide,
    arp_request_to_stack_replies ⟨7, [10], [33]⟩ ⟨true, true⟩
      ⟨mac_broadcast, 5, false, ⟨ARP_OP_REQUEST, 2, 20, 0, 10⟩⟩
      rfl rfl (by decide) (by decide)⟩

/-- C2: a received ARP Request whose spa is in the stack's IPv4 unicast set
makes `_phrx_arp` log the IP-address conflict and return with no reply, no
ARP-cache change and no probe-conflict change — regardless of the tpa,
because the conflict check precedes the reply check. -/
theorem arp_request_spa_conflict_drops (self : StackState) (cfg : ArpConfig) (p : PacketRx)
    (hpf : p.parse_failed = false)
    (hop : p.arp.oper = ARP_OP_REQUEST)
    (hspa : p.arp.spa ∈ self.ip4_unicast) :
    (phrx_arp self cfg p).ip_conflict_log = true ∧
    (phrx_arp self cfg p).tx_arp = [] ∧
    (phrx_arp self cfg p).cache_adds = [] ∧
    (phrx_arp self cfg p).probe_conflict_adds = [] := by
  have h0 : ¬(p.parse_failed = true) := by simp [hpf]
  simp only [phrx_arp, if_neg h0, if_pos hop, if_pos hspa]
  refine ⟨?_, ?_, ?_, ?_⟩ <;> trivial

theorem arp_request_spa_conflict_drops_witness :
    (10 : Ip4) ∈ ([10] : List Ip4) ∧
    ((phrx_arp ⟨7, [10], [33]⟩ ⟨true, true⟩
        ⟨mac_broadcast, 5, false, ⟨ARP_OP_REQUEST, 2, 10, 0, 10⟩⟩).ip_conflict_log = true ∧
      (phrx_arp ⟨7, [10], [33]⟩ ⟨true, true⟩
        ⟨mac_broadcast, 5, false, ⟨ARP_OP_REQUEST, 2, 10, 0, 10⟩⟩).tx_arp = [] ∧
      (phrx_arp ⟨7, [10], [33]⟩ ⟨true, true⟩
        ⟨mac_broadcast, 5, false, ⟨ARP_OP_REQUEST, 2, 10, 0, 10⟩⟩).cache_adds = [] ∧
      (phrx_arp ⟨7, [10], [33]⟩ ⟨true, true⟩
        ⟨mac_broadcast, 5, false, ⟨ARP_OP_REQUEST, 2, 10, 0, 10⟩⟩).probe_conflict_adds = []) :=
  ⟨by decide,
    arp_request_spa_conflict_drops ⟨7, [10], [33]⟩ ⟨true, true⟩
      ⟨mac_broadcast, 5, false, ⟨ARP_OP_REQUEST, 2, 10, 0, 10⟩⟩
      rfl rfl (by decide)⟩

/-- C3: a received ARP Reply whose Ethernet destination equals the stack's
unicast MAC either matches the DAD-probe pattern (spa among the stack's
candidate addresses, tha equal to the stack's MAC, tpa = 0.0.0.0) — in
which case the spa is recorded as a probe conflict and nothing is added to
the ARP cache — or it does not, in which case (spa, sha) is added to the
ARP cache unconditionally and no probe conflict is recorded. -/
theorem arp_reply_unicast_dst_cache_or_dad (self : StackState) (cfg : ArpConfig) (p : PacketRx)
    (hpf : p.parse_failed = false)
    (hop : p.arp.oper = ARP_OP_REPLY)
    (hdst : p.ether_dst = self.mac_unicast) :
    ((p.arp.spa ∈ self.ip4_host_candidate ∧ p.arp.tha = self.mac_unicast ∧
        p.arp.tpa = ip4_unspecified) →
      (phrx_arp self cfg p).probe_conflict_adds = [p.arp.spa] ∧
      (phrx_arp self cfg p).cache_adds = [] ∧
      (phrx_arp self cfg p).tx_arp = []) ∧
    (¬(p.arp.spa ∈ self.ip4_host_candidate ∧ p.arp.tha = self.mac_unicast ∧
        p.arp.tpa = ip4_unspecified) →
      (phrx_arp self cfg p).cache_adds = [(p.arp.spa, p.arp.sha)] ∧
      (phrx_arp self cfg p).probe_conflict_adds = [] ∧
      (phrx_arp self cfg p).tx_arp = []) := by
  have h0 : ¬(p.parse_failed = true) := by simp [hpf]
  have h1 : ¬(p.arp.oper = ARP_OP_REQUEST) := by rw [hop]; decide
  constructor
  · intro hdad
    have hc : p.ether_dst = self.mac_unicast ∧ p.arp.spa ∈ self.ip4_host_candidate ∧
        p.arp.tha = self.mac_unicast ∧ p.arp.tpa = ip4_unspecified := ⟨hdst, hdad⟩
    simp only [phrx_arp, if_neg h0, if_neg h1, if_pos hop, if_pos hc]
    refine ⟨?_, ?_, ?_⟩ <;> trivial
  · intro hdad
    have hc : ¬(p.ether_dst = self.mac_unicast ∧ p.arp.spa ∈ self.ip4_host_candidate ∧
        p.arp.tha = self.mac_unicast ∧ p.arp.tpa = ip4_unspecified) := fun h => hdad h.2
    simp only [phrx_arp, if_neg h0, if_neg h1, if_pos hop, if_neg hc, if_pos hdst]
    refine ⟨?_, ?_, ?_⟩ <;> trivial

theorem arp_reply_unicast_dst_cache_or_dad_witness :
    ((33 : Ip4) ∈ ([33] : List Ip4) ∧ (7 : Mac) = 7 ∧ (0 : Ip4) = ip4_unspecified) ∧
    ((phrx_arp ⟨7, [10], [33]⟩ ⟨true, true⟩
        ⟨7, 5, false, ⟨ARP_OP_REPLY, 2, 33, 7, 0⟩⟩).probe_conflict_adds = [33] ∧
      (phrx_arp ⟨7, [10], [33]⟩ ⟨true, true⟩
        ⟨7, 5, false, ⟨ARP_OP_REPLY, 2, 33, 7, 0⟩⟩).cache_adds = [] ∧
      (phrx_arp ⟨7, [10], [33]⟩ ⟨true, true⟩
        ⟨7, 5, false, ⟨ARP_OP_REPLY, 2, 33, 7, 0⟩⟩).tx_arp = []) :=
  ⟨by decide,
    (arp_reply_unicast_dst_cache_or_dad ⟨7, [10], [33]⟩ ⟨true, true⟩
      ⟨7, 5, false, ⟨ARP_OP_REPLY, 2, 33, 7, 0⟩⟩ rfl rfl rfl).1 (by decide)⟩

/-- C4: when the ARP parser has recorded a parse failure on the received
frame, `_phrx_arp` returns immediately: no reply is transmitted and neither
the ARP cache nor the probe-conflict set is modified. -/
theorem arp_parse_failure_no_effects (self : StackState) (cfg : ArpConfig) (p : PacketRx)
    (hpf : p.parse_failed = true) :
    phrx_arp self cfg p = no_effects := by
  unfold phrx_arp
  simp [hpf]

theorem arp_parse_failure_no_effects_witness :
    phrx_arp ⟨7, [10], [33]⟩ ⟨true, true⟩
      ⟨mac_broadcast, 5, true, ⟨ARP_OP_REQUEST, 2, 20, 0, 10⟩⟩ = no_effects :=
  arp_parse_failure_no_effects ⟨7, [10], [33]⟩ ⟨true, true⟩
    ⟨mac_broadcast, 5, true, ⟨ARP_OP_REQUEST, 2, 20, 0, 10⟩⟩ rfl

/-- C5: a received ARP Reply whose Ethernet destination is the broadcast MAC
(with the stack's unicast MAC distinct from broadcast) adds the
(spa, sha) mapping to the ARP cache if and only if it is a gratuitous reply
(spa = tpa) and config.arp_cache_update_from_gratuitious_reply is true; in
every other case the reply leaves the handler's state untouched. -/
theorem arp_reply_broadcast_gratuitous (self : StackState) (cfg : ArpConfig) (p : PacketRx)
    (hpf : p.parse_failed = false)
    (hop : p.arp.oper = ARP_OP_REPLY)
    (hdst : p.ether_dst = mac_broadcast)
    (hmac : self.mac_unicast ≠ mac_broadcast) :
    ((phrx_arp self cfg p).cache_adds = [(p.arp.spa, p.arp.sha)] ↔
      (p.arp.spa = p.arp.tpa ∧ cfg.arp_cache_update_from_gratuitious_reply = true)) ∧
    (¬(p.arp.spa = p.arp.tpa ∧ cfg.arp_cache_update_from_gratuitious_reply = true) →
      phrx_arp self cfg p = no_effects) := by
  have h0 : ¬(p.parse_failed = true) := by simp [hpf]
  have h1 : ¬(p.arp.oper = ARP_OP_REQUEST) := by rw [hop]; decide
  have hdstm : ¬(p.ether_dst = self.mac_unicast) := by
    rw [hdst]; exact fun h => hmac h.symm
  have hc3 : ¬(p.ether_dst = self.mac_unicast ∧ p.arp.spa ∈ self.ip4_host_candidate ∧
      p.arp.tha = self.mac_unicast ∧ p.arp.tpa = ip4_unspecified) := fun h => hdstm h.1
  have hbc : mac_is_broadcast p.ether_dst = true := by
    unfold mac_is_broadcast; rw [hdst]; simp
  by_cases hg : p.arp.spa = p.arp.tpa ∧ cfg.arp_cache_update_from_gratuitious_reply = true
  · have hc5 : mac_is_broadcast p.ether_dst = true ∧ p.arp.spa = p.arp.tpa ∧
        cfg.arp_cache_update_from_gratuitious_reply = true := ⟨hbc, hg.1, hg.2⟩
    simp only [phrx_arp, if_neg h0, if_neg h1, if_pos hop, if_neg hc3, if_neg hdstm, if_pos hc5]
    exact ⟨iff_of_true (by trivial) hg, fun h => absurd hg h⟩
  · have hc5 : ¬(mac_is_broadcast p.ether_dst = true ∧ p.arp.spa = p.arp.tpa ∧
        cfg.arp_cache_update_from_gratuitious_reply = true) := fun h => hg ⟨h.2.1, h.2.2⟩
    simp only [phrx_arp, if_neg h0, if_neg h1, if_pos hop, if_neg hc3, if_neg hdstm, if_neg hc5]
    refine ⟨iff_of_false ?_ hg, fun _ => by trivial⟩
    simp [no_effects]

theorem arp_reply_broadcast_gratuitous_witness :
    (7 : Mac) ≠ mac_broadcast ∧
    (((phrx_arp ⟨7, [10], [33]⟩ ⟨true, true⟩
        ⟨mac_broadcast, 5, false, ⟨ARP_OP_REPLY, 2, 20, 0, 20⟩⟩).cache_adds = [(20, 2)] ↔
      ((20 : Ip4) = 20 ∧ true = true)) ∧
      (¬((20 : Ip4) = 20 ∧ true = true) →
        phrx_arp ⟨7, [10], [33]⟩ ⟨true, true⟩
          ⟨mac_broadcast, 5, false, ⟨ARP_OP_REPLY, 2, 20, 0, 20⟩⟩ = no_effects)) :=
  ⟨by decide,
    arp_reply_broadcast_gratuitous ⟨7, [10], [33]⟩ ⟨true, true⟩
      ⟨mac_broadcast, 5, false, ⟨ARP_OP_REPLY, 2, 20, 0, 20⟩⟩
      rfl rfl rfl (by decide)⟩

/-! ## The TCP daytime example service (examples/tcp_daytime_service.py) -/

/-- The update `message_count = min(message_count, message_count - 1)`
performed at the bottom of the sending loop of TcpDaytimeService.service. -/
def daytime_message_count_update (n : Int) : Int := min n (n - 1)

/-- The default of the `message_count` constructor parameter of
TcpDaytimeService (-1). -/
def daytime_default_message_count : Int := -1

/-- The guard `while self._run_thread and message_count:` of the sending
loop; a Python int is truthy exactly when it is nonzero. -/
def daytime_service_guard (run_thread : Bool) (message_count : Int) : Bool :=
  run_thread && !(message_count == 0)

/-- The value of the loop-local `message_count` after `k` iterations of the
sending loop, starting from the default. -/
def daytime_message_count_after (k : Nat) : Int :=
  daytime_message_count_update^[k] daytime_default_message_count

theorem daytime_message_count_after_eq (k : Nat) :
    daytime_message_count_after k = -1 - k := by
  induction k with
  | zero => rfl
  | succ n ih =>
    unfold daytime_message_count_after at *
    rw [Function.iterate_succ_apply', ih]
    unfold daytime_message_count_update
    push_cast
    omega

/-- C10: in TcpDaytimeService.service the update
`message_count = min(message_count, message_count - 1)` is an unconditional
decrement, and starting from the default message_count = -1 the loop-local
counter never reaches zero, so the guard `self._run_thread and message_count`
equals the thread-run flag at every iteration: the loop can terminate only
via the thread-stop flag or the `break` on a send() error, never by
exhausting the message count. -/
theorem daytime_message_count_decrement :
    (∀ n : Int, daytime_message_count_update n = n - 1) ∧
    (∀ k : Nat, daytime_message_count_after k ≠ 0) ∧
    (∀ (k : Nat) (r : Bool), daytime_service_guard r (daytime_message_count_after k) = r) := by
  refine ⟨?_, ?_, ?_⟩
  · intro n
    unfold daytime_message_count_update
    omega
  · intro k
    rw [daytime_message_count_after_eq]
    omega
  · intro k r
    unfold daytime_service_guard
    have h : daytime_message_count_after k ≠ 0 := by
      rw [daytime_message_count_after_eq]; omega
    simp [h]

/-! ## Fragment reassembly (spec sections 4.2 and 8)

The reassembler's own code is not part of this source slice — only the
test driver is — so the engine below is modelled from the spec. -/

/-- Modelled from the spec: one received fragment of a flow, carrying the
wire fragment-offset field (units of 8 bytes), the more-fragments flag and
the payload bytes (missing code: the IPv4/IPv6 fragment reassembler of
spec section 4.2). -/
structure FragPkt where
  frag_offset : Nat
  mf : Bool
  data : List Nat
deriving DecidableEq

/-- Modelled from the spec: the per-flow state — a reassembly buffer of
bytes indexed by byte offset, and the total length, fixed when the MF=0
fragment is seen. -/
structure FlowState where
  buf : Nat → Option Nat
  total_len : Option Nat

/-- The flow state before any fragment arrived. -/
def empty_flow : FlowState := ⟨fun _ => none, none⟩

/-- Modelled from the spec: copy the fragment's bytes into the buffer at
byte offsets [off, off + len); a later write shadows an earlier one, so
overlap is last-writer-wins at each byte. -/
def write_frag (buf : Nat → Option Nat) (off : Nat) (data : List Nat) :
    Nat → Option Nat :=
  fun i => if off ≤ i ∧ i < off + data.length then some (data.getD (i - off) 0) else buf i

/-- Modelled from the spec: the completion test — contiguous coverage of
[0, len). -/
def buf_covered (buf : Nat → Option Nat) (len : Nat) : Bool :=
  (List.range len).all fun i => (buf i).isSome

/-- Modelled from the spec: read the reassembled datagram back out of a
fully covered buffer. -/
def buf_extract (buf : Nat → Option Nat) (len : Nat) : List Nat :=
  (List.range len).map fun i => (buf i).getD 0

/-- Modelled from the spec: after a fragment was folded into the flow,
declare completion when the total length is known and the buffer covers it;
the completed datagram is handed back for re-injection exactly once and the
flow is reset. -/
def defrag_check (st : FlowState) : FlowState × Option (List Nat) :=
  match st.total_len with
  | some len =>
    if buf_covered st.buf len then (empty_flow, some (buf_extract st.buf len))
    else (st, none)
  | none => (st, none)

/-- Modelled from the spec: process one received fragment — write its bytes
at offset*8, fix the total length when MF=0, then run the completion
check. -/
def defrag_step (st : FlowState) (f : FragPkt) : FlowState × Option (List Nat) :=
  defrag_check
    ⟨write_frag st.buf (8 * f.frag_offset) f.data,
     if f.mf then st.total_len else some (8 * f.frag_offset + f.data.length)⟩

/-- Feed a fragment sequence through one flow, collecting the reassembled
datagrams in emission order. -/
def defrag_run : FlowState → List FragPkt → FlowState × List (List Nat)
  | st, [] => (st, [])
  | st, f :: fs =>
    match defrag_step st f with
    | (st1, out) =>
      match defrag_run st1 fs with
      | (st2, outs) => (st2, out.toList ++ outs)

/-- The fragment frames delivered for an arrival order: entry i of the
order picks capture fragment i (tests/packet_flows_rx_tx.py feeds
`frags[index]` for each index of the order). -/
def rx_order (frags : List FragPkt) (order : List Nat) : List FragPkt :=
  order.filterMap fun i => frags.get? i

/-- The reassembled datagrams produced by delivering the capture fragments
in the given order, starting from an empty flow. -/
def defrag_outputs (frags : List FragPkt) (order : List Nat) : List (List Nat) :=
  (defrag_run empty_flow (rx_order frags order)).2

/-- The counters asserted by the IPv4 fragmented-echo test: ip4__frag (one
per fragment processed), ip4__defrag (one per completed reassembly) and
udp__send (one UDP echo reply per reassembled datagram handed to the
native echo). -/
structure Ip4FragStats where
  ip4_frag : Nat
  ip4_defrag : Nat
  udp_send : Nat
deriving DecidableEq

/-- Modelled from the spec: the counter bundle of the fragmented UDP echo
receive flow. -/
def ip4_frag_echo_stats (frags : List FragPkt) (order : List Nat) : Ip4FragStats :=
  ⟨(rx_order frags order).length, (defrag_outputs frags order).length,
   (defrag_outputs frags order).length⟩

/-- A fragment set is a faithful fragmentation of the datagram D: each
fragment's bytes are exactly D's bytes at its byte offset, each fragment
lies inside D, and an MF=0 fragment ends exactly at D's end. -/
@[reducible] def FragsOf (D : List Nat) (frags : List FragPkt) : Prop :=
  ∀ f ∈ frags,
    8 * f.frag_offset + f.data.length ≤ D.length ∧
    (∀ j, j < f.data.length → f.data.getD j 0 = D.getD (8 * f.frag_offset + j) 0) ∧
    (f.mf = false → 8 * f.frag_offset + f.data.length = D.length)

/-- The reassembly invariant: every byte present in the buffer is the
corresponding byte of D, and the total length, once fixed, is D's length. -/
def FlowAgrees (D : List Nat) (st : FlowState) : Prop :=
  (∀ i b, st.buf i = some b → i < D.length ∧ D.getD i 0 = b) ∧
  (∀ len, st.total_len = some len → len = D.length)

theorem flow_agrees_empty (D : List Nat) : FlowAgrees D empty_flow := by
  constructor
  · intro i b h
    simp [empty_flow] at h
  · intro len h
    simp [empty_flow] at h

theorem write_frag_agrees (D : List Nat) (buf : Nat → Option Nat) (off : Nat)
    (data : List Nat)
    (hb : off + data.length ≤ D.length)
    (hd : ∀ j, j < data.length → data.getD j 0 = D.getD (off + j) 0)
    (hbuf : ∀ i b, buf i = some b → i < D.length ∧ D.getD i 0 = b) :
    ∀ i b, write_frag buf off data i = some b → i < D.length ∧ D.getD i 0 = b := by
  intro i b h
  unfold write_frag at h
  by_cases hin : off ≤ i ∧ i < off + data.length
  · rw [if_pos hin] at h
    obtain ⟨h1, h2⟩ := hin
    refine ⟨by omega, ?_⟩
    have hj : data.getD (i - off) 0 = D.getD (off + (i - off)) 0 := hd (i - off) (by omega)
    have hoff : off + (i - off) = i := by omega
    rw [hoff] at hj
    injection h with h
    rw [← h, hj]
  · rw [if_neg hin] at h
    exact hbuf i b h

theorem buf_extract_agrees (D : List Nat) (buf : Nat → Option Nat)
    (hbuf : ∀ i b, buf i = some b → i < D.length ∧ D.getD i 0 = b)
    (hcov : buf_covered buf D.length = true) :
    buf_extract buf D.length = D := by
  unfold buf_covered at hcov
  rw [List.all_eq_true] at hcov
  apply List.ext_getElem
  · simp [buf_extract]
  · intro i h1 h2
    have hcov' : (buf i).isSome = true := hcov i (List.mem_range.mpr h2)
    obtain ⟨b, hb⟩ := Option.isSome_iff_exists.mp hcov'
    have hagree := hbuf i b hb
    have : (buf i).getD 0 = b := by rw [hb]; rfl
    simp only [buf_extract, List.getElem_map, List.getElem_range]
    rw [this, ← hagree.2, List.getD_eq_getElem D 0 h2]

theorem defrag_check_sound (D : List Nat) (st : FlowState)
    (hst : FlowAgrees D st) :
    FlowAgrees D (defrag_check st).1 ∧
    ∀ out, (defrag_check st).2 = some out → out = D := by
  obtain ⟨hbuf, htl⟩ := hst
  cases h : st.total_len with
  | none =>
    unfold defrag_check
    rw [h]
    exact ⟨⟨hbuf, htl⟩, fun out hout => by simp at hout⟩
  | some len =>
    have hlen : len = D.length := htl len h
    subst hlen
    cases hcov : buf_covered st.buf D.length with
    | false =>
      have hck : defrag_check st = (st, none) := by
        unfold defrag_check
        rw [h]
        simp [hcov]
      rw [hck]
      exact ⟨⟨hbuf, htl⟩, fun out hout => by simp at hout⟩
    | true =>
      have hck : defrag_check st = (empty_flow, some (buf_extract st.buf D.length)) := by
        unfold defrag_check
        rw [h]
        simp [hcov]
      rw [hck]
      refine ⟨flow_agrees_empty D, fun out hout => ?_⟩
      injection hout with hout
      rw [← hout]
      exact buf_extract_agrees D st.buf hbuf hcov

theorem defrag_step_sound (D : List Nat) (st : FlowState) (f : FragPkt)
    (hb : 8 * f.frag_offset + f.data.length ≤ D.length)
    (hd : ∀ j, j < f.data.length → f.data.getD j 0 = D.getD (8 * f.frag_offset + j) 0)
    (hmf : f.mf = false → 8 * f.frag_offset + f.data.length = D.length)
    (hst : FlowAgrees D st) :
    FlowAgrees D (defrag_step st f).1 ∧
    ∀ out, (defrag_step st f).2 = some out → out = D := by
  obtain ⟨hbuf, htl⟩ := hst
  have hmid : FlowAgrees D
      ⟨write_frag st.buf (8 * f.frag_offset) f.data,
       if f.mf then st.total_len else some (8 * f.frag_offset + f.data.length)⟩ := by
    constructor
    · exact write_frag_agrees D st.buf (8 * f.frag_offset) f.data hb hd hbuf
    · intro len h
      cases hf : f.mf with
      | true =>
        rw [if_pos (by simp [hf])] at h
        exact htl len h
      | false =>
        rw [if_neg (by simp [hf])] at h
        injection h with h
        rw [← h]
        exact hmf hf
  exact defrag_check_sound D _ hmid

theorem defrag_run_sound (D : List Nat) (fs : List FragPkt)
    (hfs : ∀ f ∈ fs,
      8 * f.frag_offset + f.data.length ≤ D.length ∧
      (∀ j, j < f.data.length → f.data.getD j 0 = D.getD (8 * f.frag_offset + j) 0) ∧
      (f.mf = false → 8 * f.frag_offset + f.data.length = D.length)) :
    ∀ st, FlowAgrees D st →
      FlowAgrees D (defrag_run st fs).1 ∧ ∀ out ∈ (defrag_run st fs).2, out = D := by
  induction fs with
  | nil =>
    intro st hst
    exact ⟨hst, fun out hout => by simp [defrag_run] at hout⟩
  | cons f fs ih =>
    intro st hst
    have hf := hfs f (List.mem_cons_self f fs)
    have hstep := defrag_step_sound D st f hf.1 hf.2.1 hf.2.2 hst
    have hrest := ih (fun g hg => hfs g (List.mem_cons_of_mem f hg)) (defrag_step st f).1 hstep.1
    constructor
    · show FlowAgrees D (defrag_run st (f :: fs)).1
      unfold defrag_run
      exact hrest.1
    · intro out hout
      unfold defrag_run at hout
      simp only [List.mem_append] at hout
      rcases hout with hout | hout
      · rcases ho : (defrag_step st f).2 with _ | o
        · rw [ho] at hout; simp [Option.toList] at hout
        · rw [ho] at hout
          simp [Option.toList] at hout
          rw [hout]
          exact hstep.2 o ho
      · exact hrest.2 out hout

theorem rx_order_mem (frags : List FragPkt) (order : List Nat) :
    ∀ f ∈ rx_order frags order, f ∈ frags := by
  intro f hf
  unfold rx_order at hf
  rw [List.mem_filterMap] at hf
  obtain ⟨i, _, hget⟩ := hf
  exact List.get?_mem hget

theorem defrag_outputs_sound (D : List Nat) (frags : List FragPkt) (order : List Nat)
    (hwf : FragsOf D frags) :
    ∀ out ∈ defrag_outputs frags order, out = D := by
  unfold defrag_outputs
  exact (defrag_run_sound D (rx_order frags order)
    (fun f hf => hwf f (rx_order_mem frags order f hf))
    empty_flow (flow_agrees_empty D)).2

/-- A concrete 40-byte datagram standing in for the test capture's UDP echo
datagram. -/
def test_dgram4 : List Nat := List.range 40

/-- The five capture fragments of the IPv4 test: offsets 0,8,16,24,32
bytes (wire offsets 0..4), eight bytes each, MF set on all but the last. -/
def test_frags4 : List FragPkt :=
  [⟨0, true, (test_dgram4.drop 0).take 8⟩,
   ⟨1, true, (test_dgram4.drop 8).take 8⟩,
   ⟨2, true, (test_dgram4.drop 16).take 8⟩,
   ⟨3, true, (test_dgram4.drop 24).take 8⟩,
   ⟨4, false, (test_dgram4.drop 32).take 8⟩]

/-- The duplicate-heavy arrival order of the test
test_packet_flow_rx_tx__ip4_frag__ip4_udp_echo_rx_frag_1202103341. -/
def test_order_dup : List Nat := [1, 2, 0, 2, 1, 0, 3, 3, 4, 1]

/-- C6: delivering the five IPv4 UDP echo fragments in the duplicate-heavy
order [1,2,0,2,1,0,3,3,4,1] reassembles exactly one datagram — the original
— so exactly one UDP echo reply is sent, with counters ip4__frag = 10 (one
per received fragment), ip4__defrag = 1 and udp__send = 1; and for every
arrival order of a faithful fragment set of any datagram, every payload the
reassembler emits equals that datagram. -/
theorem ip4_frag_echo_reassembly :
    (defrag_outputs test_frags4 test_order_dup = [test_dgram4] ∧
      ip4_frag_echo_stats test_frags4 test_order_dup = ⟨10, 1, 1⟩) ∧
    (∀ (D : List Nat) (frags : List FragPkt) (order : List Nat),
      FragsOf D frags → ∀ out ∈ defrag_outputs frags order, out = D) := by
  constructor
  · exact ⟨by decide, by decide⟩
  · intro D frags order hwf
    exact defrag_outputs_sound D frags order hwf

theorem ip4_frag_echo_reassembly_witness :
    FragsOf test_dgram4 test_frags4 ∧
    ∀ out ∈ defrag_outputs test_frags4 [0, 1, 2, 3, 4], out = test_dgram4 :=
  ⟨by decide,
    ip4_frag_echo_reassembly.2 test_dgram4 test_frags4 [0, 1, 2, 3, 4] (by decide)⟩

/-! ## IPv6 fragmented-echo receive counters (spec sections 4.2, 4.4, 8)

IPv6 reassembly is identical to IPv4 but driven by the Fragment extension
header, and the reconstructed packet is re-parsed from the IPv6 layer; the
receive path's code is not part of this slice, so the counting pipeline is
modelled from the spec. -/

/-- The receive counters asserted by the IPv6 fragmented-echo test. -/
structure Ip6FragStats where
  ip6_pre_parse : Nat
  ip6_dst_unicast : Nat
  ip6_ext_frag_pre_parse : Nat
  ip6_ext_frag_defrag : Nat
deriving DecidableEq

/-- Modelled from the spec: receive accounting for one IPv6 fragment frame
destined to our unicast address — the frame passes the IPv6 parser
(pre_parse, dst_unicast), then the Fragment extension header parser
(ext_frag_pre_parse), then the reassembler; a completed datagram counts
ext_frag_defrag and is re-injected through the IPv6 parser exactly once,
counting pre_parse and dst_unicast once more (missing code: the IPv6
receive path of spec section 4.4). -/
def ip6_rx_frame (st : FlowState) (stats : Ip6FragStats) (f : FragPkt) :
    FlowState × Ip6FragStats :=
  let stats1 : Ip6FragStats :=
    ⟨stats.ip6_pre_parse + 1, stats.ip6_dst_unicast + 1,
     stats.ip6_ext_frag_pre_parse + 1, stats.ip6_ext_frag_defrag⟩
  match defrag_step st f with
  | (st1, none) => (st1, stats1)
  | (st1, some _) =>
    (st1, ⟨stats1.ip6_pre_parse + 1, stats1.ip6_dst_unicast + 1,
           stats1.ip6_ext_frag_pre_parse, stats1.ip6_ext_frag_defrag + 1⟩)

/-- Deliver a fragment frame sequence, accumulating the counters. -/
def ip6_rx_run : FlowState → Ip6FragStats → List FragPkt → FlowState × Ip6FragStats
  | st, stats, [] => (st, stats)
  | st, stats, f :: fs =>
    match ip6_rx_frame st stats f with
    | (st1, stats1) => ip6_rx_run st1 stats1 fs

/-- The counter bundle after delivering the capture fragments in the given
order, starting from zeroed counters and an empty flow. -/
def ip6_frag_echo_stats (frags : List FragPkt) (order : List Nat) : Ip6FragStats :=
  (ip6_rx_run empty_flow ⟨0, 0, 0, 0⟩ (rx_order frags order)).2

theorem defrag_run_cons (st : FlowState) (f : FragPkt) (fs : List FragPkt) :
    defrag_run st (f :: fs) =
      ((defrag_run (defrag_step st f).1 fs).1,
       (defrag_step st f).2.toList ++ (defrag_run (defrag_step st f).1 fs).2) := rfl

theorem ip6_rx_run_cons (st : FlowState) (stats : Ip6FragStats) (f : FragPkt)
    (fs : List FragPkt) :
    ip6_rx_run st stats (f :: fs) =
      ip6_rx_run (ip6_rx_frame st stats f).1 (ip6_rx_frame st stats f).2 fs := rfl

theorem ip6_rx_run_eq (fs : List FragPkt) :
    ∀ st stats, ip6_rx_run st stats fs =
      ((defrag_run st fs).1,
       ⟨stats.ip6_pre_parse + fs.length + (defrag_run st fs).2.length,
        stats.ip6_dst_unicast + fs.length + (defrag_run st fs).2.length,
        stats.ip6_ext_frag_pre_parse + fs.length,
        stats.ip6_ext_frag_defrag + (defrag_run st fs).2.length⟩) := by
  induction fs with
  | nil =>
    intro st stats
    simp [ip6_rx_run, defrag_run]
  | cons f fs ih =>
    intro st stats
    rcases hstep : defrag_step st f with ⟨st1, out⟩
    have hd1 : (defrag_step st f).1 = st1 := by rw [hstep]
    have hfr1 : (ip6_rx_frame st stats f).1 = st1 := by
      unfold ip6_rx_frame
      rw [hstep]
      cases out <;> rfl
    cases out with
    | none =>
      have hd2 : (defrag_step st f).2 = none := by rw [hstep]
      have hfr2 : (ip6_rx_frame st stats f).2 =
          ⟨stats.ip6_pre_parse + 1, stats.ip6_dst_unicast + 1,
           stats.ip6_ext_frag_pre_parse + 1, stats.ip6_ext_frag_defrag⟩ := by
        unfold ip6_rx_frame
        rw [hstep]
      rw [ip6_rx_run_cons, hfr1, hfr2, ih st1, defrag_run_cons, hd1, hd2]
      simp only [Option.toList, List.nil_append, List.length_cons, Prod.mk.injEq,
        Ip6FragStats.mk.injEq]
      refine ⟨?_, ?_, ?_, ?_, ?_⟩
      all_goals first
      | trivial
      | omega
    | some dgram =>
      have hd2 : (defrag_step st f).2 = some dgram := by rw [hstep]
      have hfr2 : (ip6_rx_frame st stats f).2 =
          ⟨stats.ip6_pre_parse + 1 + 1, stats.ip6_dst_unicast + 1 + 1,
           stats.ip6_ext_frag_pre_parse + 1, stats.ip6_ext_frag_defrag + 1⟩ := by
        unfold ip6_rx_frame
        rw [hstep]
      rw [ip6_rx_run_cons, hfr1, hfr2, ih st1, defrag_run_cons, hd1, hd2]
      simp only [Option.toList, List.singleton_append, List.length_cons, Prod.mk.injEq,
        Ip6FragStats.mk.injEq]
      refine ⟨?_, ?_, ?_, ?_, ?_⟩
      all_goals first
      | trivial
      | omega

/-- All ways to insert an element into a list. -/
def insert_everywhere (x : Nat) : List Nat → List (List Nat)
  | [] => [[x]]
  | y :: ys => (x :: y :: ys) :: (insert_everywhere x ys).map (fun zs => y :: zs)

/-- All permutations of a list, by structural recursion. -/
def perms_of : List Nat → List (List Nat)
  | [] => [[]]
  | x :: xs => (perms_of xs).flatMap (insert_everywhere x)

theorem mem_insert_everywhere_erase (x : Nat) :
    ∀ order : List Nat, x ∈ order → order ∈ insert_everywhere x (order.erase x) := by
  intro order
  induction order with
  | nil =>
    intro h
    simp at h
  | cons y rest ih =>
    intro h
    by_cases hxy : y = x
    · subst hxy
      rw [List.erase_cons_head]
      cases rest with
      | nil => exact List.mem_cons_self _ _
      | cons z zs => exact List.mem_cons_self _ _
    · have hbeq : ¬(y == x) := by simp [hxy]
      rw [List.erase_cons_tail hbeq]
      have hx : x ∈ rest := by
        rcases List.mem_cons.mp h with h | h
        · exact absurd h.symm hxy
        · exact h
      unfold insert_everywhere
      exact List.mem_cons.mpr (Or.inr (List.mem_map.mpr ⟨rest, ih hx, rfl⟩))

theorem perms_of_complete : ∀ (l order : List Nat), order.Perm l → order ∈ perms_of l := by
  intro l
  induction l with
  | nil =>
    intro order h
    rw [h.eq_nil]
    exact List.mem_cons_self _ _
  | cons x xs ih =>
    intro order h
    have hx : x ∈ order := h.mem_iff.mpr (List.mem_cons_self x xs)
    have he : (order.erase x).Perm xs := by
      have h2 := h.erase x
      rwa [List.erase_cons_head] at h2
    exact List.mem_flatMap.mpr
      ⟨order.erase x, ih (order.erase x) he, mem_insert_everywhere_erase x order hx⟩

theorem rx_order_length (frags : List FragPkt) (order : List Nat)
    (h : ∀ i ∈ order, i < frags.length) :
    (rx_order frags order).length = order.length := by
  unfold rx_order
  induction order with
  | nil => rfl
  | cons i o ih =>
    simp only [List.filterMap_cons]
    have hi : i < frags.length := h i (List.mem_cons_self i o)
    rcases hg : frags.get? i with _ | f
    · rw [List.get?_eq_none] at hg
      omega
    · simp only [List.length_cons]
      rw [ih (fun j hj => h j (List.mem_cons_of_mem i hj))]

/-- C7: delivering a complete IPv6 fragment set in any order makes the
reassembler emit exactly once and re-inject the reconstructed packet
through the IPv6 parser exactly once: in general ip6__pre_parse and
ip6__dst_unicast count one per received frame plus one per completed
reassembly and ip6_ext_frag__pre_parse counts one per frame; and for every
permutation of the five capture fragments the bundle is
ip6__pre_parse = ip6__dst_unicast = len(order)+1,
ip6_ext_frag__pre_parse = len(order), ip6_ext_frag__defrag = 1. -/
theorem ip6_frag_counters :
    (∀ (frags : List FragPkt) (order : List Nat),
      ip6_frag_echo_stats frags order =
        ⟨(rx_order frags order).length + (defrag_outputs frags order).length,
         (rx_order frags order).length + (defrag_outputs frags order).length,
         (rx_order frags order).length,
         (defrag_outputs frags order).length⟩) ∧
    (∀ order : List Nat, order.Perm [0, 1, 2, 3, 4] →
      ip6_frag_echo_stats test_frags4 order =
        ⟨order.length + 1, order.length + 1, order.length, 1⟩) := by
  have hgen : ∀ (frags : List FragPkt) (order : List Nat),
      ip6_frag_echo_stats frags order =
        ⟨(rx_order frags order).length + (defrag_outputs frags order).length,
         (rx_order frags order).length + (defrag_outputs frags order).length,
         (rx_order frags order).length,
         (defrag_outputs frags order).length⟩ := by
    intro frags order
    unfold ip6_frag_echo_stats defrag_outputs
    rw [ip6_rx_run_eq]
    simp
  refine ⟨hgen, ?_⟩
  intro order hperm
  have hmem : order ∈ perms_of [0, 1, 2, 3, 4] :=
    perms_of_complete [0, 1, 2, 3, 4] order hperm
  have hball : ∀ o ∈ perms_of [0, 1, 2, 3, 4],
      (defrag_outputs test_frags4 o).length = 1 := by decide
  have hone : (defrag_outputs test_frags4 order).length = 1 := hball order hmem
  have hlt : ∀ i ∈ order, i < test_frags4.length := by
    intro i hi
    have hm : i ∈ ([0, 1, 2, 3, 4] : List Nat) := hperm.mem_iff.mp hi
    have h5 : test_frags4.length = 5 := rfl
    simp only [List.mem_cons, List.not_mem_nil, or_false] at hm
    rcases hm with rfl | rfl | rfl | rfl | rfl <;> omega
  have hlen : (rx_order test_frags4 order).length = order.length :=
    rx_order_length test_frags4 order hlt
  rw [hgen, hlen, hone]

theorem ip6_frag_counters_witness :
    ([0, 1, 2, 3, 4] : List Nat).Perm [0, 1, 2, 3, 4] ∧
    ip6_frag_echo_stats test_frags4 [0, 1, 2, 3, 4] = ⟨6, 6, 5, 1⟩ :=
  ⟨List.Perm.refl _, ip6_frag_counters.2 [0, 1, 2, 3, 4] (List.Perm.refl _)⟩

/-! ## TCP receive routing (spec section 4.4)

The TCP receive path's code is not part of this slice — only the
SYN-to-closed-port tests are — so the routing step is modelled from the
spec. -/

/-- An IPv4 or IPv6 address, family-tagged. -/
inductive IpAddr where
  | v4 (a : Nat)
  | v6 (a : Nat)
deriving DecidableEq

/-- The fields of a TCP segment that the routing step reads, plus the
flags a response segment carries. -/
structure TcpSegment where
  src_ip : IpAddr
  dst_ip : IpAddr
  src_port : Nat
  dst_port : Nat
  flag_syn : Bool
  flag_rst : Bool
  flag_ack : Bool
deriving DecidableEq

/-- The 4-tuple keying an established TCP session. -/
structure TcpSessionKey where
  local_ip : IpAddr
  local_port : Nat
  remote_ip : IpAddr
  remote_port : Nat
deriving DecidableEq

/-- A listening TCP socket: a local port and an optional local address
(none is the wildcard, which under dual-bind accepts either family). -/
structure TcpListener where
  local_ip : Option IpAddr
  local_port : Nat
deriving DecidableEq

/-- Exact 4-tuple match of a session against a received segment. -/
def session_matches (s : TcpSessionKey) (seg : TcpSegment) : Bool :=
  s.local_ip == seg.dst_ip && s.local_port == seg.dst_port &&
  s.remote_ip == seg.src_ip && s.remote_port == seg.src_port

/-- Match of a LISTEN socket against a received segment: same local port
and either a wildcard local address or the segment's destination. -/
def listener_matches (l : TcpListener) (seg : TcpSegment) : Bool :=
  l.local_port == seg.dst_port &&
  (match l.local_ip with
   | none => true
   | some ip => ip == seg.dst_ip)

/-- What the TCP receive routing does with a received segment. -/
inductive TcpRxAction where
  | to_session (s : TcpSessionKey)
  | to_listener (l : TcpListener)
  | respond_rst_ack (resp : TcpSegment)
deriving DecidableEq

/-- The counters asserted by the SYN-to-closed-port tests. -/
structure TcpRxStats where
  tcp_no_socket_match_respond_rst : Nat
  tcp_flag_rst : Nat
  tcp_flag_ack : Nat
deriving DecidableEq

/-- Modelled from the spec: the RST/ACK response segment to an unmatched
segment, addressed back to the sender, with RST and ACK set. -/
def tcp_rst_reply (seg : TcpSegment) : TcpSegment :=
  ⟨seg.dst_ip, seg.src_ip, seg.dst_port, seg.src_port, false, true, true⟩

/-- Modelled from the spec: route a received TCP segment — an exact
4-tuple session match first, else a LISTEN socket on the local (ip, port)
with wildcard dual-bind semantics, else respond with a RST/ACK segment
(missing code: the TCP receive path of spec section 4.4). -/
def phrx_tcp (sessions : List TcpSessionKey) (listeners : List TcpListener)
    (seg : TcpSegment) : TcpRxAction × TcpRxStats :=
  match sessions.find? (fun s => session_matches s seg) with
  | some s => (.to_session s, ⟨0, 0, 0⟩)
  | none =>
    match listeners.find? (fun l => listener_matches l seg) with
    | some l => (.to_listener l, ⟨0, 0, 0⟩)
    | none => (.respond_rst_ack (tcp_rst_reply seg), ⟨1, 1, 1⟩)

/-- C8: a received TCP SYN segment (of either family) whose 4-tuple
matches no session and whose local (ip, port) matches no listening socket
makes the stack emit exactly one response segment with both RST and ACK
set, addressed back to the sender, with
tcp__no_socket_match__respond_rst = tcp__flag_rst = tcp__flag_ack = 1. -/
theorem tcp_syn_closed_port_rst_ack (sessions : List TcpSessionKey)
    (listeners : List TcpListener) (seg : TcpSegment)
    (hsyn : seg.flag_syn = true)
    (hsess : ∀ s ∈ sessions, session_matches s seg = false)
    (hlst : ∀ l ∈ listeners, listener_matches l seg = false) :
    phrx_tcp sessions listeners seg =
      (TcpRxAction.respond_rst_ack (tcp_rst_reply seg), ⟨1, 1, 1⟩) ∧
    (tcp_rst_reply seg).flag_rst = true ∧
    (tcp_rst_reply seg).flag_ack = true := by
  have h1 : sessions.find? (fun s => session_matches s seg) = none :=
    List.find?_eq_none.mpr (fun s hs => by simp [hsess s hs])
  have h2 : listeners.find? (fun l => listener_matches l seg) = none :=
    List.find?_eq_none.mpr (fun l hl => by simp [hlst l hl])
  refine ⟨?_, rfl, rfl⟩
  unfold phrx_tcp
  rw [h1, h2]

theorem tcp_syn_closed_port_rst_ack_witness :
    phrx_tcp [⟨IpAddr.v4 1, 80, IpAddr.v4 2, 99⟩] [⟨some (IpAddr.v4 1), 81⟩]
        ⟨IpAddr.v4 2, IpAddr.v4 1, 5000, 7, true, false, false⟩ =
      (TcpRxAction.respond_rst_ack
        (tcp_rst_reply ⟨IpAddr.v4 2, IpAddr.v4 1, 5000, 7, true, false, false⟩),
       ⟨1, 1, 1⟩) ∧
    (tcp_rst_reply ⟨IpAddr.v4 2, IpAddr.v4 1, 5000, 7, true, false, false⟩).flag_rst = true ∧
    (tcp_rst_reply ⟨IpAddr.v4 2, IpAddr.v4 1, 5000, 7, true, false, false⟩).flag_ack = true :=
  tcp_syn_closed_port_rst_ack
    [⟨IpAddr.v4 1, 80, IpAddr.v4 2, 99⟩] [⟨some (IpAddr.v4 1), 81⟩]
    ⟨IpAddr.v4 2, IpAddr.v4 1, 5000, 7, true, false, false⟩
    rfl (by decide) (by decide)

/-! ## IPv4 transmit-side fragmentation (spec section 4.4)

The transmit path's code is not part of this slice, so the fragmentation
step is modelled from the spec. -/

/-- The IPv4 header length used by the fragmentation threshold. -/
def ip4_header_len : Nat := 20

/-- Modelled from the spec: the fragment data unit — the MTU minus the
IP header, rounded down to a multiple of 8. -/
def frag_data_len (mtu hlen : Nat) : Nat := (mtu - hlen) / 8 * 8

/-- Modelled from the spec: split the IP payload into fragment-sized
chunks, in order. -/
def split_data (c : Nat) (d : List Nat) : List (List Nat) :=
  if hd : d = [] then []
  else if hc : c = 0 then [d]
  else d.take c :: split_data c (d.drop c)
termination_by d.length
decreasing_by
  have h1 : d.length ≠ 0 := fun h => hd (List.length_eq_zero.mp h)
  simp only [List.length_drop]
  omega

theorem split_data_eq (c : Nat) (d : List Nat) :
    split_data c d =
      if d = [] then []
      else if c = 0 then [d]
      else d.take c :: split_data c (d.drop c) := by
  conv_lhs => rw [split_data.eq_def]
  by_cases hd : d = [] <;> by_cases hc : c = 0 <;> simp [hd, hc]

theorem split_data_flatten (c : Nat) :
    ∀ (n : Nat) (d : List Nat), d.length ≤ n → (split_data c d).flatten = d := by
  intro n
  induction n with
  | zero =>
    intro d h
    have hd : d = [] := List.length_eq_zero.mp (Nat.le_zero.mp h)
    subst hd
    rw [split_data_eq]
    simp
  | succ n ih =>
    intro d h
    rw [split_data_eq]
    by_cases hd : d = []
    · simp [hd]
    · by_cases hc : c = 0
      · simp [hd, hc]
      · rw [if_neg hd, if_neg hc]
        rw [List.flatten_cons]
        have hlen0 : d.length ≠ 0 := fun h0 => hd (List.length_eq_zero.mp h0)
        rw [ih (d.drop c) (by simp only [List.length_drop]; omega)]
        exact List.take_append_drop c d

theorem split_data_length (c : Nat) (hc : 0 < c) :
    ∀ (n : Nat) (d : List Nat), d.length ≤ n →
      (split_data c d).length = (d.length + c - 1) / c := by
  intro n
  induction n with
  | zero =>
    intro d h
    have hd : d = [] := List.length_eq_zero.mp (Nat.le_zero.mp h)
    subst hd
    rw [split_data_eq]
    simp only [if_pos rfl, List.length_nil, List.length_cons]
    exact (Nat.div_eq_of_lt (by omega)).symm
  | succ n ih =>
    intro d h
    rw [split_data_eq]
    by_cases hd : d = []
    · rw [if_pos hd, hd]
      simp only [List.length_nil]
      exact (Nat.div_eq_of_lt (by omega)).symm
    · have hlen0 : d.length ≠ 0 := fun h0 => hd (List.length_eq_zero.mp h0)
      rw [if_neg hd, if_neg (by omega : ¬(c = 0))]
      simp only [List.length_cons]
      rw [ih (d.drop c) (by simp only [List.length_drop]; omega)]
      simp only [List.length_drop]
      by_cases hlc : d.length ≤ c
      · rw [Nat.sub_eq_zero_of_le hlc]
        rw [Nat.div_eq_of_lt (by omega)]
        have hone : (d.length + c - 1) / c = 1 :=
          Nat.div_eq_of_lt_le (by omega) (by omega)
        omega
      · have h1 : d.length - c + c - 1 = d.length - 1 := by omega
        have h2 : d.length + c - 1 = (d.length - 1) + c := by omega
        rw [h1, h2, Nat.add_div_right _ hc]

/-- The transmit counters asserted by the IPv4 tx-fragmentation test. -/
structure Ip4TxStats where
  udp_pre_assemble : Nat
  udp_send : Nat
  ip4_pre_assemble : Nat
  ip4_mtu_ok_send : Nat
  ip4_mtu_exceed_frag : Nat
  ip4_mtu_exceed_frag_send : Nat
  ether_pre_assemble : Nat
deriving DecidableEq

/-- Modelled from the spec: the UDP-then-IPv4 transmit path for one echo
reply — the UDP layer is assembled once; then either the single IP packet
is sent when header plus payload fits the MTU, or the payload is split
into fragment data units and each fragment is handed to an Ethernet
assembly of its own, in order (missing code: the transmit path of spec
section 4.4). -/
def phtx_udp_ip4 (mtu : Nat) (payload : List Nat) : List (List Nat) × Ip4TxStats :=
  if ip4_header_len + payload.length ≤ mtu then
    ([payload], ⟨1, 1, 1, 1, 0, 0, 1⟩)
  else
    (split_data (frag_data_len mtu ip4_header_len) payload,
     ⟨1, 1, 1, 0, 1,
      (split_data (frag_data_len mtu ip4_header_len) payload).length,
      (split_data (frag_data_len mtu ip4_header_len) payload).length⟩)

/-- C9: an IPv4 UDP echo reply whose IP payload would exceed TAP_MTU = 1500
is fragmented on transmit: for a payload in the five-fragment range the
stack emits exactly 5 fragments whose in-order concatenation is the
payload, the UDP layer is assembled only once
(udp__pre_assemble = udp__send = 1), and ip4__mtu_exceed__frag = 1,
ip4__mtu_exceed__frag__send = 5, ether__pre_assemble = 5 with no
ip4__mtu_ok__send. -/
theorem ip4_tx_mtu_exceed_frag (payload : List Nat)
    (h1 : 4 * 1480 < payload.length)
    (h2 : payload.length ≤ 5 * 1480) :
    (phtx_udp_ip4 1500 payload).1.length = 5 ∧
    (phtx_udp_ip4 1500 payload).1.flatten = payload ∧
    (phtx_udp_ip4 1500 payload).2 = ⟨1, 1, 1, 0, 1, 5, 5⟩ := by
  have hmtu : ¬(ip4_header_len + payload.length ≤ 1500) := by
    unfold ip4_header_len
    omega
  have hfdl : frag_data_len 1500 ip4_header_len = 1480 := rfl
  have hlen : (split_data 1480 payload).length = 5 := by
    rw [split_data_length 1480 (by omega) payload.length payload (Nat.le_refl _)]
    omega
  unfold phtx_udp_ip4
  rw [if_neg hmtu, hfdl]
  exact ⟨hlen, split_data_flatten 1480 payload.length payload (Nat.le_refl _),
    by rw [hlen]⟩

theorem ip4_tx_mtu_exceed_frag_witness :
    4 * 1480 < (List.replicate 5921 0 : List Nat).length ∧
    ((phtx_udp_ip4 1500 (List.replicate 5921 0)).1.length = 5 ∧
      (phtx_udp_ip4 1500 (List.replicate 5921 0)).1.flatten = List.replicate 5921 0 ∧
      (phtx_udp_ip4 1500 (List.replicate 5921 0)).2 = ⟨1, 1, 1, 0, 1, 5, 5⟩) :=
  ⟨by rw [List.length_replicate]; omega,
    ip4_tx_mtu_exceed_frag (List.replicate 5921 0)
      (by rw [List.length_replicate]; omega)
      (by rw [List.length_replicate]; omega)⟩

end PyTCP
